import Mathlib

set_option maxHeartbeats 1000000

/-!
Verification development for the crossline interactive line-editing engine.

The Rust sources are embedded shallowly:
* grapheme segmentation and display-width data are carried on a `Grapheme`
  structure (the `unicode_segmentation` / `unicode_width` crates supply them
  in the source);
* UTF-8 byte arithmetic used by the byte-indexed code paths is computed by
  `charBytes` / `utf8Len`; Rust slicing that would panic (non-boundary byte
  index, out-of-range slice, `usize`/`u16` underflow in a debug build) is
  modelled by `Option`, with `none` standing for a panic;
* stateful methods become explicit state-passing functions; terminal output
  performed through `crossterm` is reified as a `TermOut` event list.
-/

/-! ## Unicode model -/

/-- A grapheme cluster: its code points and its terminal display width
(`unicode_width` column count; wide CJK characters have width 2,
combining marks 0). -/
structure Grapheme where
  chars : List Char
  width : Nat
deriving DecidableEq

/-- Column width of a grapheme string: `UnicodeWidthStr::width`,
the sum of the grapheme display widths. -/
def strWidth (s : List Grapheme) : Nat := (s.map Grapheme.width).sum

/-- UTF-8 size in bytes of one scalar value (Rust `char::len_utf8`). -/
def charBytes (c : Char) : Nat :=
  if c.val < 0x80 then 1
  else if c.val < 0x800 then 2
  else if c.val < 0x10000 then 3
  else 4

/-- UTF-8 byte length of a character list (Rust `str::len`). -/
def utf8Len (s : List Char) : Nat := (s.map charBytes).sum

/-- UTF-8 byte length of a grapheme string. -/
def gBytes (s : List Grapheme) : Nat := (s.map (fun g => utf8Len g.chars)).sum

/-- Take the characters covered by the first `n` bytes of a string
(Rust `&s[0..n]`); `none` when `n` is not a character boundary or is out of
range, where Rust panics. -/
def byteTake : List Char → Nat → Option (List Char)
  | _, 0 => some []
  | [], _ + 1 => none
  | c :: cs, n + 1 =>
    if charBytes c ≤ n + 1 then (byteTake cs (n + 1 - charBytes c)).map (c :: ·)
    else none

/-- Drop the characters covered by the first `n` bytes of a string
(Rust `&s[n..]`); `none` when `n` is not a character boundary or is out of
range, where Rust panics. -/
def byteDrop : List Char → Nat → Option (List Char)
  | l, 0 => some l
  | [], _ + 1 => none
  | c :: cs, n + 1 =>
    if charBytes c ≤ n + 1 then byteDrop cs (n + 1 - charBytes c)
    else none

/-- Rust slice `&l[a..b]`: `none` (panic) when `a > b` or `b > l.len()`. -/
def slice? (l : List α) (a b : Nat) : Option (List α) :=
  if a ≤ b ∧ b ≤ l.length then some ((l.drop a).take (b - a)) else none

/-! ## History navigator (`src/history.rs`) -/

/-- `HistoryOptions`: maximum number of history items (`maximum_size: u16`). -/
structure HistoryOptions where
  maximumSize : Nat
deriving DecidableEq

/-- `HistoryOptions::default`: `maximum_size = 1000`. -/
def HistoryOptions.default : HistoryOptions := ⟨1000⟩

/-- `MemoryHistory`: items, options and the navigation cursor
(`None` = composing, `Some(items.len())` = past the end). -/
structure MemoryHistory where
  items : List String
  options : HistoryOptions
  cursor : Option Nat
deriving DecidableEq

namespace MemoryHistory

/-- `MemoryHistory::new(Default::default())`. -/
def new : MemoryHistory := ⟨[], HistoryOptions.default, none⟩

/-- `MemoryHistory::get`: item at the cursor, if any. -/
def get (h : MemoryHistory) : Option String :=
  match h.cursor with
  | some c => h.items.get? c
  | none => none

/-- `MemoryHistory::push`: append, evict the oldest item (`remove(0)`) when
over capacity, then set the cursor to the new length. -/
def push (h : MemoryHistory) (item : String) : MemoryHistory :=
  let items1 := h.items ++ [item]
  let items2 := if items1.length > h.options.maximumSize then items1.tail else items1
  { h with items := items2, cursor := some items2.length }

/-- `MemoryHistory::move_by`: shift the cursor by `amount` and read the item.
The `usize` subtraction for a negative `amount` is truncated here; the source
only ever calls it with `-1` from `previous` when the cursor is positive, so
Rust's debug underflow panic is unreachable on those call sites. -/
def moveBy (h : MemoryHistory) (amount : Int) : Option String × MemoryHistory :=
  match h.cursor with
  | some c =>
    let newPos := if amount < 0 then c - amount.natAbs else c + amount.toNat
    let h' := { h with cursor := some newPos }
    (h'.get, h')
  | none => (h.get, h)

/-- `MemoryHistory::previous`: clamp at index 0; snap a past-the-end cursor
to the last item; otherwise move back one. `items.len() - 1` is truncated
`usize` subtraction (Rust would debug-panic on an empty log with a positive
cursor, a state unreachable through `push`/`clear`). -/
def previous (h : MemoryHistory) : Option String × MemoryHistory :=
  match h.cursor with
  | some c =>
    if c > 0 then
      if c > h.items.length - 1 then
        let h' := { h with cursor := some (h.items.length - 1) }
        (h'.get, h')
      else
        h.moveBy (-1)
    else
      let h' := { h with cursor := some 0 }
      (h'.get, h')
  | none => (none, h)

/-- `MemoryHistory::next`: move forward; past the newest item, park the
cursor at `items.len()` and return `None`. -/
def next (h : MemoryHistory) : Option String × MemoryHistory :=
  match h.cursor with
  | some c =>
    if c < h.items.length - 1 then
      h.moveBy 1
    else
      let h' := { h with cursor := some h.items.length }
      (h'.get, h')
  | none => (none, h)

/-- `MemoryHistory::is_last`: cursor sits past the end of the log. -/
def isLast (h : MemoryHistory) : Bool :=
  match h.cursor with
  | some c => c == h.items.length
  | none => false

end MemoryHistory

/-- The pieces of the prompt loop state that the history key actions touch:
the shared history, the visible line buffer, and the captured scratch line
(`history_buffer` in `src/lib.rs`). -/
structure HistSession where
  hist : MemoryHistory
  buffer : String
  historyBuffer : String
deriving DecidableEq

/-- `KeyAction::HistoryPrevious` handler (`src/lib.rs` 374-399): capture the
scratch line when the cursor is past the end, then recall the previous item
into the visible buffer (the redraw paints the recalled line). -/
def historyPrevAction (st : HistSession) : HistSession :=
  let hb := if st.hist.isLast then st.buffer else st.historyBuffer
  match st.hist.previous with
  | (some line, h') => { hist := h', buffer := line, historyBuffer := hb }
  | (none, h') => { hist := h', buffer := st.buffer, historyBuffer := hb }

/-- `KeyAction::HistoryNext` handler (`src/lib.rs` 402-435): recall the next
item, or restore the captured scratch line when `next()` returns `None`. -/
def historyNextAction (st : HistSession) : HistSession :=
  match st.hist.next with
  | (some line, h') => { st with hist := h', buffer := line }
  | (none, h') => { st with hist := h', buffer := st.historyBuffer }

/-! ## Terminal output events

Crossterm commands queued or written by the buffers, in emission order;
this is the byte sequence the terminal receives, reified. -/

/-- One terminal command or write. -/
inductive TermOut where
  | moveTo (col row : Nat)
  | clearCurrentLine
  | clearFromCursorDown
  | clearAll
  | moveToNextLine (n : Nat)
  | writeOut (s : List Char)
  | flushOut
deriving DecidableEq

/-! ## Terminal buffer (`src/terminal_buffer.rs`) -/

/-- The `Lines` bookkeeping: row count, current row, and wrap break points. -/
structure Lines where
  count : Nat
  current : Nat
  newlines : List Nat
deriving DecidableEq

/-- `Lines::count` (`src/terminal_buffer.rs` 41-84): one row when prefix and
buffer fit the width, otherwise a scan over the combined grapheme stream
counting hard newlines and positions at multiples of the width, returning the
row count and the break points pushed into `newlines`. (`index % width` with
`width = 0` would panic in Rust; no claim exercises a zero width.) -/
def linesCountCalc (width : Nat) (pfx buffer : List Grapheme)
    (pfxCols bufferCols : Nat) : Nat × List Nat :=
  if pfxCols + bufferCols ≤ width then (1, [])
  else
    let gs := pfx ++ buffer
    let hits := ((List.range gs.length).zip gs).filter
      (fun p => p.2.chars == ['\n'] || p.1 % width == 0)
    let rows := hits.length
    (if rows = 0 then 1 else rows, hits.map (·.1))

/-- `TerminalBuffer`: line content, cached column widths, mask character,
terminal size, session start position, cursor position and row bookkeeping. -/
structure TerminalBuffer where
  pfx : List Grapheme
  buffer : List Grapheme
  pfxCols : Nat
  bufferCols : Nat
  echo : Option Char
  size : Nat × Nat
  startPos : Nat × Nat
  pos : Nat × Nat
  lines : Lines
deriving DecidableEq

namespace TerminalBuffer

/-- `TerminalBuffer::new`. -/
def new (pfx : List Grapheme) (size : Nat × Nat) (position : Nat × Nat)
    (echo : Option Char) : TerminalBuffer :=
  let pcols := strWidth pfx
  let c := linesCountCalc size.1 pfx [] pcols 0
  { pfx := pfx, buffer := [], pfxCols := pcols, bufferCols := 0, echo := echo,
    size := size, startPos := position, pos := position,
    lines := { count := c.1, current := 0, newlines := c.2 } }

/-- `TerminalBuffer::update`: replace the buffer, recomputing its column
width together with it. -/
def update (tb : TerminalBuffer) (v : List Grapheme) : TerminalBuffer :=
  { tb with bufferCols := strWidth v, buffer := v }

/-- `TerminalBuffer::count_rows`: recompute the row count, store it in
`lines.count` and push fresh break points onto the existing `newlines`
vector (the source never clears it), returning the count. -/
def countRows (tb : TerminalBuffer) : TerminalBuffer × Nat :=
  let c := linesCountCalc tb.size.1 tb.pfx tb.buffer tb.pfxCols tb.bufferCols
  let ls : Lines :=
    { tb.lines with count := c.1, newlines := tb.lines.newlines ++ c.2 }
  ({ tb with lines := ls }, c.1)

/-- `TerminalBuffer::visible` (`src/terminal_buffer.rs` 340-347): with a mask
character configured, the mask repeated `buffer_cols` times; otherwise the
raw buffer. -/
def visible (tb : TerminalBuffer) : List Char :=
  match tb.echo with
  | some e => List.replicate tb.bufferCols e
  | none => (tb.buffer.map Grapheme.chars).flatten

/-- The multi-row emission loop inside `TerminalBuffer::redraw` (387-402):
iterate the combined grapheme stream accumulating a segment; at the single
break point taken from the iterator (`it.next()` is called once, before the
loop), write the segment and move to the next line.  A trailing segment
after the break point is never written. -/
def emitRows (bp : Option Nat) : Nat → List Char → List Grapheme → List TermOut
  | _, _, [] => []
  | i, acc, g :: rest =>
    let acc' := acc ++ g.chars
    match bp with
    | some b =>
      if i = b then
        [.writeOut acc', .moveToNextLine 1, .flushOut] ++ emitRows bp (i + 1) [] rest
      else emitRows bp (i + 1) acc' rest
    | none => emitRows bp (i + 1) acc' rest

/-- `TerminalBuffer::redraw` (`src/terminal_buffer.rs` 366-415): single-row
path clears and rewrites the current row (prefix only on the first line);
multi-row path clears from the session start downward and re-emits the
wrapped segments.  The method takes `&self`: it reads state and writes
output only. -/
def redraw (tb : TerminalBuffer) (position : Nat × Nat) : List TermOut :=
  if tb.lines.count = 1 then
    [.moveTo 0 position.2, .clearCurrentLine]
    ++ (if tb.lines.current = 0 then [TermOut.writeOut ((tb.pfx.map Grapheme.chars).flatten)] else [])
    ++ [.writeOut tb.visible, .moveTo position.1 position.2, .flushOut]
  else
    [.moveTo 0 tb.startPos.2, .clearCurrentLine, .clearFromCursorDown,
     .moveTo 0 tb.startPos.2]
    ++ emitRows (tb.lines.newlines.drop 1).head? 0 [] (tb.pfx ++ tb.buffer)
    ++ [.flushOut]

/-- `redraw` as a state-passing call: the Rust method borrows `self`
immutably, so the state component of the result is the input state. -/
def redrawCall (tb : TerminalBuffer) (position : Nat × Nat) :
    TerminalBuffer × List TermOut :=
  (tb, tb.redraw position)

/-- `TerminalBuffer::refresh`: `update` then `redraw`. -/
def refresh (tb : TerminalBuffer) (buf : List Grapheme) (position : Nat × Nat) :
    TerminalBuffer × List TermOut :=
  let tb' := tb.update buf
  (tb', tb'.redraw position)

/-- `TerminalBuffer::write_char` (`src/terminal_buffer.rs` 433-486).
The cursor offset `pos` is the current column minus the prefix width on the
first line (`u16` underflow = `none`); the appending test compares `pos`
against the *byte* length of the buffer, and the splitting path indexes the
grapheme vector at `pos` (out of range = `none`, a Rust slice panic).  The
typed character is inserted as the grapheme `g` (re-segmentation that merges
a combining mark into its base is not modelled; the claims below use only
self-contained graphemes).  After `count_rows` has stored the new row count,
the comparison `num_rows == self.lines.count` reads that same stored value,
so the wrap branch of the source is unreachable; it is still modelled.
Returns the new state, the position handed to `redraw`, and the output. -/
def writeChar (tb : TerminalBuffer) (g : Grapheme) :
    Option (TerminalBuffer × (Nat × Nat) × List TermOut) :=
  let gs := tb.buffer
  let col := tb.pos.1
  let row := tb.pos.2
  let pos? : Option Nat :=
    if tb.lines.current = 0 then
      if col < tb.pfxCols then none else some (col - tb.pfxCols)
    else some col
  match pos? with
  | none => none
  | some pos =>
    let split? : Option (List Grapheme × List Grapheme) :=
      if pos = gBytes tb.buffer then some (gs, [])
      else if pos ≤ gs.length then some (gs.take pos, gs.drop pos)
      else none
    match split? with
    | none => none
    | some (before, after) =>
      let newBuf := before ++ [g] ++ after
      let tb1 := tb.update newBuf
      let r := tb1.countRows
      let tb2 := r.1
      let numRows := r.2
      if numRows = tb2.lines.count then
        let newPos := (tb2.pfxCols + pos + 1, row)
        some (tb2, newPos, tb2.redraw newPos)
      else
        let tb3 := { tb2 with lines :=
          { tb2.lines with current := numRows - tb2.lines.count } }
        let newPos := (0, tb3.startPos.2 + tb3.lines.current)
        some (tb3, newPos, tb3.redraw newPos)

/-- `TerminalBuffer::erase` (`src/terminal_buffer.rs` 294-337).  For the
before-cursor direction, `new_col` computes `after_start - amount` in
`usize`: underflow (cursor closer to the prefix than `amount`) is a panic,
modelled as `none`.  The after-segment slice bound is `self.buffer_cols`,
the *column* width, used as a grapheme index: `slice?` returns `none`
(a Rust slice panic) whenever it exceeds the grapheme count.  An empty
buffer is a no-op. -/
def erase (tb : TerminalBuffer) (amount : Nat) (before : Bool) :
    Option (TerminalBuffer × (Nat × Nat) × List TermOut) :=
  let gs := tb.buffer
  if gs.length > 0 then
    let column := tb.pos.1
    let row := tb.pos.2
    let trip? : Option (Nat × Nat × Nat) :=
      if before then
        if column < tb.pfxCols then none
        else
          let afterStart := column - tb.pfxCols
          if afterStart < amount then none
          else some (afterStart - amount, afterStart, tb.pfxCols + (afterStart - amount))
      else
        if column < tb.pfxCols then none
        else
          let beforeEnd := column - tb.pfxCols
          let afterStart :=
            if beforeEnd + amount ≤ gs.length then beforeEnd + amount else gs.length
          some (beforeEnd, afterStart, column)
    match trip? with
    | none => none
    | some (beforeEnd, afterStart, newCol) =>
      match slice? gs 0 beforeEnd, slice? gs afterStart tb.bufferCols with
      | some bseg, some aseg =>
        let res := tb.refresh (bseg ++ aseg) (newCol, row)
        some (res.1, (newCol, row), res.2)
      | _, _ => none
  else some (tb, tb.pos, [])

end TerminalBuffer

/-- One edit step of a session: `write_char`, then the control loop re-reads
the physical cursor, which the redraw has just placed at the requested
position (`cursor::position()` at the top of the loop in `src/lib.rs`). -/
def typeStep (tb : TerminalBuffer) (g : Grapheme) : Option TerminalBuffer :=
  (tb.writeChar g).map (fun r => { r.1 with pos := r.2.1 })

/-- One erase-before step of a session, re-reading the cursor afterwards. -/
def eraseStep (tb : TerminalBuffer) (amount : Nat) : Option TerminalBuffer :=
  (tb.erase amount true).map (fun r => { r.1 with pos := r.2.1 })

/-! ## String buffer (`src/string_buffer.rs`) -/

/-- `StringBuffer`: the single-row predecessor of `TerminalBuffer`. -/
structure StringBuffer where
  pfx : List Char
  buffer : List Char
  pfxCols : Nat
  bufferCols : Nat
  echo : Option Char
  size : Nat × Nat
  pos : Nat × Nat
deriving DecidableEq

namespace StringBuffer

/-- `StringBuffer::visible`: mask repeated `buffer_cols` times, or the raw
buffer. -/
def visible (sb : StringBuffer) : List Char :=
  match sb.echo with
  | some e => List.replicate sb.bufferCols e
  | none => sb.buffer

/-- `StringBuffer::redraw` (`src/string_buffer.rs` 100-112): move to column
0, clear the row, write prefix and visible buffer, move to the requested
position, flush. -/
def redraw (sb : StringBuffer) (position : Nat × Nat) : List TermOut :=
  [.moveTo 0 position.2, .clearCurrentLine, .writeOut sb.pfx,
   .writeOut sb.visible, .moveTo position.1 position.2, .flushOut]

/-- `redraw` as a state-passing call; the method borrows `self` immutably. -/
def redrawCall (sb : StringBuffer) (position : Nat × Nat) :
    StringBuffer × List TermOut :=
  (sb, sb.redraw position)

end StringBuffer

/-! ## Key bindings (`src/key_binding.rs`, `src/command.rs`) -/

/-- `Command` (`src/command.rs`): the abstract edit commands.  The run loop
in `src/lib.rs` names these `KeyAction` (`SubmitLine` for `AcceptLine`,
`AbortPrompt` for `Abort`, …). -/
inductive Command where
  | Abort
  | WriteChar (c : Char)
  | AcceptLine
  | BackwardChar
  | ForwardChar
  | BackwardDeleteChar
  | ClearScreen
  | BeginningOfLine
  | EndOfLine
  | BackwardKillLine
  | KillLine
  | BackwardKillWord
  | PreviousHistory
  | NextHistory
deriving DecidableEq

/-- `KeyModifiers` as the three flag bits the bindings use. -/
structure Modifiers where
  shift : Bool
  control : Bool
  alt : Bool
deriving DecidableEq

/-- No modifiers (`KeyModifiers::NONE`). -/
def mNone : Modifiers := ⟨false, false, false⟩

/-- Control only (`KeyModifiers::CONTROL`). -/
def mCtrl : Modifiers := ⟨false, true, false⟩

/-- `KeyCode`: the named key codes the binding table mentions. -/
inductive KeyCode where
  | Char (c : Char)
  | F (n : Nat)
  | Enter
  | Left
  | Right
  | Backspace
  | Up
  | Down
deriving DecidableEq

/-- `KeyEvent`: code plus modifiers, compared field-wise. -/
structure KeyEvent where
  code : KeyCode
  modifiers : Modifiers
deriving DecidableEq

/-- `KeyType`: the classification tags. -/
inductive KeyType where
  | Named
  | Char
  | Func
deriving DecidableEq

/-- `KeyDefinition`: classification, optional exact matcher, handler. -/
structure KeyDefinition where
  kind : KeyType
  event : Option KeyEvent
  actions : KeyEvent → List Command

/-- `KeyBindings`: the ordered binding table. -/
structure KeyBindings where
  bindings : List KeyDefinition

/-- The classification applied at the top of `KeyBindings::first`
(`src/key_binding.rs` 35-47): a character with Control or Alt is `Named`,
a bare character is `Char`, a function key is `Func`, everything else
is `Named`. -/
def classify (e : KeyEvent) : KeyType :=
  match e.code with
  | .Char _ => if e.modifiers.control || e.modifiers.alt then .Named else .Char
  | .F _ => .Func
  | _ => .Named

/-- The closure passed to `find_map` inside `KeyBindings::first`
(`src/key_binding.rs` 49-68): skip other classifications; for `Named`,
require an exact matcher equal to the event (a `Named` definition without a
matcher yields `None`); for `Char` and `Func`, fire unconditionally. -/
def resolveOne (kind : KeyType) (e : KeyEvent) (d : KeyDefinition) :
    Option (List Command) :=
  if d.kind = kind then
    if kind = .Named then
      match d.event with
      | some ev => if ev = e then some (d.actions e) else none
      | none => none
    else some (d.actions e)
  else none

/-- `KeyBindings::first` (`src/key_binding.rs` 34-69). -/
def KeyBindings.first (t : KeyBindings) (e : KeyEvent) : Option (List Command) :=
  t.bindings.findSome? (resolveOne (classify e) e)

/-- Modelled from the spec's words, for comparison with `KeyBindings.first`
(claim C5): within the event's classification, bindings carrying an explicit
matcher are tested in declaration order and the first exact match wins; if
none of them matches, the classification's no-matcher fallback runs if one
exists; otherwise the event resolves to nothing. -/
def firstSpecClaimed (t : KeyBindings) (e : KeyEvent) : Option (List Command) :=
  let cands := t.bindings.filter (fun d => d.kind == classify e)
  match cands.find? (fun d => d.event == some e) with
  | some d => some (d.actions e)
  | none =>
    match cands.find? (fun d => d.event == none) with
    | some d => some (d.actions e)
    | none => none

/-- The resolution rule `KeyBindings.first` actually implements, stated
declaratively (the amended claim C5): scan only the event's classification;
for `Named` the first binding whose matcher equals the event exactly wins and
no-matcher bindings never fire; for `Char` and `Func` the first binding of
the classification fires unconditionally, its matcher ignored. -/
def firstAmendedSpec (t : KeyBindings) (e : KeyEvent) : Option (List Command) :=
  let cands := t.bindings.filter (fun d => d.kind == classify e)
  if classify e = .Named then
    (cands.find? (fun d => d.event == some e)).map (fun d => d.actions e)
  else
    cands.head?.map (fun d => d.actions e)

/-- `KeyBindings::default` (`src/key_binding.rs` 72-263) with the `history`
feature enabled, in declaration order.  The `unreachable!()` arm of the
`Char` catch-all is modelled as the empty command list (the classification
guarantees a `Char` code there). -/
def defaultBindings : KeyBindings :=
  ⟨[ ⟨.Char, none, fun ev =>
        match ev.code with
        | .Char c => [Command.WriteChar c]
        | _ => []⟩,
     ⟨.Named, some ⟨.Enter, mNone⟩, fun _ => [Command.AcceptLine]⟩,
     ⟨.Named, some ⟨.Left, mNone⟩, fun _ => [Command.BackwardChar]⟩,
     ⟨.Named, some ⟨.Right, mNone⟩, fun _ => [Command.ForwardChar]⟩,
     ⟨.Named, some ⟨.Backspace, mNone⟩, fun _ => [Command.BackwardDeleteChar]⟩,
     ⟨.Named, some ⟨.Up, mNone⟩, fun _ => [Command.PreviousHistory]⟩,
     ⟨.Named, some ⟨.Down, mNone⟩, fun _ => [Command.NextHistory]⟩,
     ⟨.Named, some ⟨.Char 'c', mCtrl⟩, fun _ => [Command.Abort]⟩,
     ⟨.Named, some ⟨.Char 'g', mCtrl⟩, fun _ => [Command.Abort]⟩,
     ⟨.Named, some ⟨.Char 'l', mCtrl⟩, fun _ => [Command.ClearScreen]⟩,
     ⟨.Named, some ⟨.Char 'a', mCtrl⟩, fun _ => [Command.BeginningOfLine]⟩,
     ⟨.Named, some ⟨.Char 'e', mCtrl⟩, fun _ => [Command.EndOfLine]⟩,
     ⟨.Named, some ⟨.Char 'u', mCtrl⟩, fun _ => [Command.BackwardKillLine]⟩,
     ⟨.Named, some ⟨.Char 'k', mCtrl⟩, fun _ => [Command.KillLine]⟩,
     ⟨.Named, some ⟨.Char 'w', mCtrl⟩, fun _ => [Command.BackwardKillWord]⟩,
     ⟨.Named, some ⟨.Char 'j', mCtrl⟩, fun _ => [Command.AcceptLine]⟩,
     ⟨.Named, some ⟨.Char 'm', mCtrl⟩, fun _ => [Command.AcceptLine]⟩,
     ⟨.Named, some ⟨.Char 'h', mCtrl⟩, fun _ => [Command.BackwardDeleteChar]⟩,
     ⟨.Named, some ⟨.Char 'p', mCtrl⟩, fun _ => [Command.PreviousHistory]⟩,
     ⟨.Named, some ⟨.Char 'n', mCtrl⟩, fun _ => [Command.NextHistory]⟩ ]⟩

/-- A table expressible with the source's `KeyDefinition` struct: a single
`Char`-classified binding that carries an explicit matcher for plain 'x'. -/
def charMatcherTable : KeyBindings :=
  ⟨[ ⟨.Char, some ⟨.Char 'x', mNone⟩, fun _ => [Command.WriteChar 'x']⟩ ]⟩

/-! ## Prompt run loop (`src/lib.rs`) -/

/-- `write_char` (`src/lib.rs` 567-631).  `pos = col - prompt_cols` is `u16`
arithmetic (underflow = `none`, a debug panic); the append test compares the
column offset against the buffer's byte length; the split slices the buffer
at *byte* index `pos` (`none` on a non-boundary); with `pos = 0` and a
non-empty, non-appending buffer both segments are empty, so the inserted
character replaces the whole line.  Returns the new line and the column the
cursor is queued to (`prompt_cols + pos + 1`). -/
def writeCharLib (promptCols col : Nat) (line : List Char) (c : Char) :
    Option (List Char × Nat) :=
  if col < promptCols then none
  else
    let pos := col - promptCols
    let split? : Option (List Char × List Char) :=
      if pos = utf8Len line then some (line, [])
      else if pos > 0 then
        match byteTake line pos, byteDrop line pos with
        | some b, some a => some (b, a)
        | _, _ => none
      else some ([], [])
    split?.map (fun p => (p.1 ++ [c] ++ p.2, promptCols + pos + 1))

/-- `KeyAction::EraseCharacter` (`src/lib.rs` 304-341), the raw-buffer part:
with `pos = col - prompt_cols > 0`, the new buffer is the *byte* slices
`&buffer[0..pos-1]` and `&buffer[pos..]` joined (`none` on a non-boundary
index, a panic), the cursor moving to `prompt_cols + pos - 1`; with
`pos = 0` the buffer and cursor are unchanged. -/
def eraseCharLib (promptCols col : Nat) (buffer : List Char) :
    Option (List Char × Nat) :=
  if col < promptCols then none
  else
    let pos := col - promptCols
    if pos > 0 then
      match byteTake buffer (pos - 1), byteDrop buffer pos with
      | some bseg, some aseg => some (bseg ++ aseg, promptCols + pos - 1)
      | _, _ => none
    else some (buffer, col)

/-- `MultiLine` options (`src/options.rs` 120-125). -/
structure MultiLine where
  repeatPrompt : Bool
deriving DecidableEq

/-- The prompt options the modelled run loop consults: the prefix width and
the multiline configuration. -/
structure RunOpts where
  promptCols : Nat
  multiline : Option MultiLine
deriving DecidableEq

/-- The per-iteration state of the run loop: the line buffer and the
physical cursor (re-queried from the terminal at the top of each
iteration; redraws place it where the handlers request). -/
structure RunState where
  buffer : List Char
  col : Nat
  row : Nat
deriving DecidableEq

/-- The commands of the run loop modelled here: character input, accept-line
and abort — the three the prompt-session claims concern
(`KeyAction::WriteChar` / `SubmitLine` / `AbortPrompt` in `src/lib.rs`). -/
inductive LoopCmd where
  | write (c : Char)
  | submit
  | abort
deriving DecidableEq

/-- Result of one run-loop iteration. -/
inductive StepRes where
  | cont (s : RunState)
  | done (value : List Char)
  | crash
deriving DecidableEq

/-- One iteration of the `'prompt` loop (`src/lib.rs` 233-444) on the
modelled commands.  `SubmitLine` with multiline configured appends a single
`'\n'` to the buffer, moves to column 0 of the next row and, with
`repeat_prompt`, rewrites the prefix (placing the cursor after it); it never
leaves the loop.  Without multiline, `SubmitLine` breaks out of the loop
returning the buffer, exactly as `AbortPrompt` does. -/
def stepRun (opts : RunOpts) (s : RunState) (cmd : LoopCmd) : StepRes :=
  match cmd with
  | .write c =>
    match writeCharLib opts.promptCols s.col s.buffer c with
    | some r => .cont { s with buffer := r.1, col := r.2 }
    | none => .crash
  | .submit =>
    match opts.multiline with
    | some ml =>
      .cont { buffer := s.buffer ++ ['\n'],
              col := if ml.repeatPrompt then opts.promptCols else 0,
              row := s.row + 1 }
    | none => .done s.buffer
  | .abort => .done s.buffer

/-- Outcome of running the loop on a finite event list. -/
inductive RunOut where
  | finished (value : List Char)
  | outOfEvents
  | crashed
deriving DecidableEq

/-- Run the `'prompt` loop over a list of already-resolved commands.  The
real loop blocks for the next event; an exhausted list is reported as
`outOfEvents`, a Rust panic as `crashed`. -/
def runLoop (opts : RunOpts) : RunState → List LoopCmd → RunOut
  | _, [] => .outOfEvents
  | s, e :: rest =>
    match stepRun opts s e with
    | .cont s' => runLoop opts s' rest
    | .done v => .finished v
    | .crash => .crashed

/-! ## Required-value retry loop (`src/lib.rs` 135-158, `src/options.rs` 91-104) -/

/-- ASCII whitespace test standing in for Rust `char::is_whitespace`
(the claims only exercise ASCII whitespace). -/
def isWhiteC (c : Char) : Bool :=
  c == ' ' || c == '\t' || c == '\n' || c == '\r'

/-- Rust `str::trim`: strip leading and trailing whitespace. -/
def trimChars (s : List Char) : List Char :=
  ((s.dropWhile isWhiteC).reverse.dropWhile isWhiteC).reverse

/-- The emptiness check of the required loop: trim first only when
`Required.trim` is configured, then test emptiness.  The check value is
separate from the stored value, which is returned untrimmed. -/
def checkEmptyC (trim : Bool) (v : List Char) : Bool :=
  (if trim then trimChars v else v).isEmpty

/-- The `loop` of `prompt` under a `Required` policy (`src/lib.rs` 137-152):
`inputs n` is the value the `n`-th call of `validate` submits (0-indexed);
`attempts` is the counter, incremented after each submission; the loop
breaks when the check value is non-empty or when `max_attempts` is non-zero
and exhausted, returning the raw submitted value and the number of cycles
performed.  `fuel` bounds the unrolling of the potentially endless Rust
`loop`; `none` means the loop is still running after `fuel` cycles. -/
def requiredLoop (inputs : Nat → List Char) (trim : Bool) (maxAttempts : Nat) :
    Nat → Nat → Option (List Char × Nat)
  | _, 0 => none
  | attempts, fuel + 1 =>
    let value := inputs attempts
    let attempts' := attempts + 1
    if !(checkEmptyC trim value) || (decide (0 < maxAttempts) && decide (maxAttempts ≤ attempts')) then
      some (value, attempts')
    else
      requiredLoop inputs trim maxAttempts attempts' fuel

/-! ## Concrete instances used by the falsifying scenarios -/

/-- Multiline options for the counterexample session: a prompt of width 2,
`repeat_prompt = true`. -/
def mlOpts : RunOpts := ⟨2, some ⟨true⟩⟩

/-- Counterexample session: type `a`, accept the line, type `b`, accept the
line, abort. -/
def mlEvents : List LoopCmd := [.write 'a', .submit, .write 'b', .submit, .abort]

/-- Number of accept-line commands in a session. -/
def numSubmits (evs : List LoopCmd) : Nat :=
  (evs.filter (fun e => e == LoopCmd.submit)).length

/-! ## Helper lemmas -/

/-- A string of 1-byte characters has byte length equal to its character
count. -/
theorem utf8Len_ascii (l : List Char) :
    (∀ c ∈ l, charBytes c = 1) → utf8Len l = l.length := by
  induction l with
  | nil => intro _; rfl
  | cons c cs ih =>
    intro h
    have hc : charBytes c = 1 := h c (List.mem_cons_self c cs)
    have hcs : utf8Len cs = cs.length :=
      ih (fun x hx => h x (List.mem_cons_of_mem c hx))
    simp only [utf8Len, List.map_cons, List.sum_cons, List.length_cons] at *
    omega

/-! ## Claim theorems -/

/-- Claim C2: pushing `a, b, c` into a fresh history, `previous()` yields
`c, b, a`, a fourth `previous()` clamps and yields `a` again, and `next()`
then replays `b, c` and finally `None` (not an empty string), at which
point the history-next key handler restores the captured scratch line `s`
as the visible buffer. -/
theorem historyNavScenario (a b c s : String) :
    (let h0 := ((MemoryHistory.new.push a).push b).push c
     let p1 := h0.previous
     let p2 := p1.2.previous
     let p3 := p2.2.previous
     let p4 := p3.2.previous
     let n1 := p4.2.next
     let n2 := n1.2.next
     let n3 := n2.2.next
     p1.1 = some c ∧ p2.1 = some b ∧ p3.1 = some a ∧ p4.1 = some a ∧
       n1.1 = some b ∧ n2.1 = some c ∧ n3.1 = none) ∧
    (let h0 := ((MemoryHistory.new.push a).push b).push c
     let st0 : HistSession := ⟨h0, s, ""⟩
     let st4 := historyPrevAction (historyPrevAction
       (historyPrevAction (historyPrevAction st0)))
     let st7 := historyNextAction (historyNextAction (historyNextAction st4))
     (historyPrevAction st0).historyBuffer = s ∧
       (historyPrevAction st0).buffer = c ∧ st4.buffer = a ∧ st7.buffer = s) := by
  have e0 : ((MemoryHistory.new.push a).push b).push c
      = ⟨[a, b, c], ⟨1000⟩, some 3⟩ := rfl
  have prev3 : (⟨[a, b, c], ⟨1000⟩, some 3⟩ : MemoryHistory).previous
      = (some c, ⟨[a, b, c], ⟨1000⟩, some 2⟩) := rfl
  have prev2 : (⟨[a, b, c], ⟨1000⟩, some 2⟩ : MemoryHistory).previous
      = (some b, ⟨[a, b, c], ⟨1000⟩, some 1⟩) := rfl
  have prev1 : (⟨[a, b, c], ⟨1000⟩, some 1⟩ : MemoryHistory).previous
      = (some a, ⟨[a, b, c], ⟨1000⟩, some 0⟩) := rfl
  have prev0 : (⟨[a, b, c], ⟨1000⟩, some 0⟩ : MemoryHistory).previous
      = (some a, ⟨[a, b, c], ⟨1000⟩, some 0⟩) := rfl
  have next0 : (⟨[a, b, c], ⟨1000⟩, some 0⟩ : MemoryHistory).next
      = (some b, ⟨[a, b, c], ⟨1000⟩, some 1⟩) := rfl
  have next1 : (⟨[a, b, c], ⟨1000⟩, some 1⟩ : MemoryHistory).next
      = (some c, ⟨[a, b, c], ⟨1000⟩, some 2⟩) := rfl
  have next2 : (⟨[a, b, c], ⟨1000⟩, some 2⟩ : MemoryHistory).next
      = (none, ⟨[a, b, c], ⟨1000⟩, some 3⟩) := rfl
  have t1 : historyPrevAction ⟨⟨[a, b, c], ⟨1000⟩, some 3⟩, s, ""⟩
      = ⟨⟨[a, b, c], ⟨1000⟩, some 2⟩, c, s⟩ := by
    simp [historyPrevAction, MemoryHistory.isLast, prev3]
  have t2 : historyPrevAction ⟨⟨[a, b, c], ⟨1000⟩, some 2⟩, c, s⟩
      = ⟨⟨[a, b, c], ⟨1000⟩, some 1⟩, b, s⟩ := by
    simp [historyPrevAction, MemoryHistory.isLast, prev2]
  have t3 : historyPrevAction ⟨⟨[a, b, c], ⟨1000⟩, some 1⟩, b, s⟩
      = ⟨⟨[a, b, c], ⟨1000⟩, some 0⟩, a, s⟩ := by
    simp [historyPrevAction, MemoryHistory.isLast, prev1]
  have t4 : historyPrevAction ⟨⟨[a, b, c], ⟨1000⟩, some 0⟩, a, s⟩
      = ⟨⟨[a, b, c], ⟨1000⟩, some 0⟩, a, s⟩ := by
    simp [historyPrevAction, MemoryHistory.isLast, prev0]
  have t5 : historyNextAction ⟨⟨[a, b, c], ⟨1000⟩, some 0⟩, a, s⟩
      = ⟨⟨[a, b, c], ⟨1000⟩, some 1⟩, b, s⟩ := by
    simp [historyNextAction, next0]
  have t6 : historyNextAction ⟨⟨[a, b, c], ⟨1000⟩, some 1⟩, b, s⟩
      = ⟨⟨[a, b, c], ⟨1000⟩, some 2⟩, c, s⟩ := by
    simp [historyNextAction, next1]
  have t7 : historyNextAction ⟨⟨[a, b, c], ⟨1000⟩, some 2⟩, c, s⟩
      = ⟨⟨[a, b, c], ⟨1000⟩, some 3⟩, s, s⟩ := by
    simp [historyNextAction, next2]
  refine ⟨?_, ?_⟩
  · simp [e0, prev3, prev2, prev1, prev0, next0, next1, next2]
  · simp [e0, t1, t2, t3, t4, t5, t6, t7]

/-- Claim C8: `push` always parks the cursor past the end (at the new log
length); the log stays within the configured maximum when it was within it
before; and a push that would exceed the maximum evicts the oldest item
first (`remove(0)`). -/
theorem historyPushInvariant (h : MemoryHistory) (item : String) :
    (h.push item).cursor = some (h.push item).items.length ∧
    (h.push item).items =
      (if h.items.length + 1 > h.options.maximumSize
       then (h.items ++ [item]).tail else h.items ++ [item]) ∧
    (h.items.length ≤ h.options.maximumSize →
      (h.push item).items.length ≤ h.options.maximumSize) := by
  have hlen : (h.push item).items =
      (if (h.items ++ [item]).length > h.options.maximumSize
       then (h.items ++ [item]).tail else h.items ++ [item]) := rfl
  refine ⟨rfl, ?_, ?_⟩
  · rw [hlen]
    simp [List.length_append]
  · intro hle
    rw [hlen]
    split_ifs with hov
    · simp only [List.length_tail, List.length_append, List.length_singleton] at *
      omega
    · simp only [List.length_append, List.length_singleton] at *
      omega

/-- Witness for C8 at a concrete over-capacity history. -/
theorem historyPushInvariant_witness :
    (⟨["x"], ⟨1⟩, none⟩ : MemoryHistory).items.length ≤ 1 ∧
    ((⟨["x"], ⟨1⟩, none⟩ : MemoryHistory).push "y").items.length ≤ 1 :=
  ⟨by decide, (historyPushInvariant ⟨["x"], ⟨1⟩, none⟩ "y").2.2 (by decide)⟩

/-- Claim C9: both `redraw` implementations borrow their receiver immutably
and compute output purely from it, so two successive calls with no
intervening mutation leave the state unchanged and emit identical output
sequences. -/
theorem redrawDeterministic (tb : TerminalBuffer) (p : Nat × Nat)
    (sb : StringBuffer) (q : Nat × Nat) :
    (TerminalBuffer.redrawCall tb p).1 = tb ∧
    (TerminalBuffer.redrawCall ((TerminalBuffer.redrawCall tb p).1) p).2 =
      (TerminalBuffer.redrawCall tb p).2 ∧
    (StringBuffer.redrawCall sb q).1 = sb ∧
    (StringBuffer.redrawCall ((StringBuffer.redrawCall sb q).1) q).2 =
      (StringBuffer.redrawCall sb q).2 :=
  ⟨rfl, rfl, rfl, rfl⟩

/-- Claim C6 (failing part): under the default table, Control+'c' resolves
to abort and a plain 'a' resolves to insert('a'), but Control+'d' resolves
to nothing at all — the abort companion the table actually declares is
Control+'g', contradicting the crate's own documentation ("Use Ctrl+c or
Ctrl+d to exit the prompt", `src/options.rs` 23-25). -/
theorem defaultBindingsResolution :
    KeyBindings.first defaultBindings ⟨.Char 'c', mCtrl⟩ = some [Command.Abort] ∧
    KeyBindings.first defaultBindings ⟨.Char 'd', mCtrl⟩ = none ∧
    KeyBindings.first defaultBindings ⟨.Char 'g', mCtrl⟩ = some [Command.Abort] ∧
    KeyBindings.first defaultBindings ⟨.Char 'a', mNone⟩ = some [Command.WriteChar 'a'] := by
  refine ⟨by decide, by decide, by decide, by decide⟩

/-- Claim C4 (failing): the run loop returns `Ok(buffer)` from the abort arm
exactly as it does from a submit, so an aborted session is byte-for-byte
indistinguishable from a successful submission of the same content; in
particular aborting at an empty prompt equals submitting an empty line.
The abort and submit steps are literally equal for every state when
multiline is off. -/
theorem abortIndistinguishable :
    runLoop ⟨2, none⟩ ⟨[], 2, 0⟩ [.abort] = .finished [] ∧
    runLoop ⟨2, none⟩ ⟨[], 2, 0⟩ [.submit] = .finished [] ∧
    (∀ s : RunState, stepRun ⟨2, none⟩ s .abort = stepRun ⟨2, none⟩ s .submit) :=
  ⟨rfl, rfl, fun _ => rfl⟩

/-- Claim C7 (failing): typing the single wide character `日` (one grapheme,
three UTF-8 bytes, two columns) and then applying erase-before(1) once does
not return the buffer to empty — it panics.  `TerminalBuffer::erase`
slices the one-element grapheme vector with the range `1..2` because the
upper bound is `buffer_cols`, a column count; the run-loop variant
`KeyAction::EraseCharacter` slices the string at byte index 1, inside the
three-byte character.  Both panics are modelled as `none`. -/
theorem eraseMultibyteDiverges :
    ((typeStep (TerminalBuffer.new [] (80, 24) (0, 0) none) ⟨['日'], 2⟩).bind
        (fun tb => eraseStep tb 1)) = none ∧
    ((writeCharLib 0 0 [] '日').bind (fun r => eraseCharLib 0 r.2 r.1)) = none := by
  refine ⟨by decide, by decide⟩

/-- Claim C1: in password mode the visible form is the mask character
repeated `buffer_cols` times, so every character of it is the mask, its
length is the real buffer's display width (its column width equals that
width whenever the mask is single-column, as the default `'*'` is), and any
two buffer contents of equal display width render identically — the masked
view depends on the buffer only through its total width. -/
theorem passwordMasking (t0 : TerminalBuffer) (e : Char) (b b2 : List Grapheme)
    (w : Char → Nat) :
    (({ t0 with echo := some e }).update b).visible.all (fun c => c == e) = true ∧
    (({ t0 with echo := some e }).update b).visible.length = strWidth b ∧
    (w e = 1 →
      ((({ t0 with echo := some e }).update b).visible.map w).sum = strWidth b) ∧
    (strWidth b = strWidth b2 →
      (({ t0 with echo := some e }).update b).visible =
        (({ t0 with echo := some e }).update b2).visible) := by
  have hv : ∀ v : List Grapheme,
      (({ t0 with echo := some e }).update v).visible = List.replicate (strWidth v) e :=
    fun _ => rfl
  refine ⟨?_, ?_, ?_, ?_⟩
  · rw [hv b]
    induction strWidth b with
    | zero => rfl
    | succ n ih => simp [List.replicate_succ, ih]
  · rw [hv b]; simp
  · intro hw
    rw [hv b]
    simp [List.map_replicate, List.sum_replicate, hw]
  · intro hwidth
    rw [hv b, hv b2, hwidth]

/-- Witness for C1 at the default mask `'*'` and two one-column buffers. -/
theorem passwordMasking_witness :
    ((({ TerminalBuffer.new [] (80, 24) (0, 0) none with echo := some '*' }).update
        [⟨['a'], 1⟩]).visible.map (fun _ => (1 : Nat))).sum = strWidth [⟨['a'], 1⟩] ∧
    (({ TerminalBuffer.new [] (80, 24) (0, 0) none with echo := some '*' }).update
        [⟨['a'], 1⟩]).visible =
      (({ TerminalBuffer.new [] (80, 24) (0, 0) none with echo := some '*' }).update
        [⟨['b'], 1⟩]).visible :=
  ⟨(passwordMasking (TerminalBuffer.new [] (80, 24) (0, 0) none) '*'
      [⟨['a'], 1⟩] [⟨['b'], 1⟩] (fun _ => 1)).2.2.1 rfl,
   (passwordMasking (TerminalBuffer.new [] (80, 24) (0, 0) none) '*'
      [⟨['a'], 1⟩] [⟨['b'], 1⟩] (fun _ => 1)).2.2.2 rfl⟩

/-- Counterexample to claim C5 as stated: on a table whose only binding is
`Char`-classified but carries an explicit matcher for plain 'x', the event
plain 'y' resolves to that binding's commands — `first` never tests the
matcher for the `Char` classification — while the claimed rule (first exact
match, else no-matcher fallback, else nothing) resolves it to nothing. -/
theorem firstResolutionCounterexample :
    KeyBindings.first charMatcherTable ⟨.Char 'y', mNone⟩ = some [Command.WriteChar 'x'] ∧
    firstSpecClaimed charMatcherTable ⟨.Char 'y', mNone⟩ = none ∧
    KeyBindings.first charMatcherTable ⟨.Char 'y', mNone⟩ ≠
      firstSpecClaimed charMatcherTable ⟨.Char 'y', mNone⟩ := by
  refine ⟨by decide, by decide, by decide⟩

/-- Resolution for the `Named` classification: the first binding whose
matcher equals the event wins; matcher-less `Named` bindings never fire. -/
theorem findSome_resolve_named (e : KeyEvent) (l : List KeyDefinition) :
    l.findSome? (resolveOne .Named e) =
      ((l.filter (fun d => d.kind == KeyType.Named)).find?
        (fun d => d.event == some e)).map (fun d => d.actions e) := by
  induction l with
  | nil => rfl
  | cons d rest ih =>
    by_cases hk : d.kind = KeyType.Named
    · cases hev : d.event with
      | none =>
        simp [List.findSome?_cons, List.filter_cons, List.find?_cons,
          resolveOne, hk, hev, ih]
      | some ev =>
        by_cases heq : ev = e
        · simp [List.findSome?_cons, List.filter_cons, List.find?_cons,
            resolveOne, hk, hev, heq]
        · simp [List.findSome?_cons, List.filter_cons, List.find?_cons,
            resolveOne, hk, hev, heq, ih]
    · simp [List.findSome?_cons, List.filter_cons, resolveOne,
        beq_iff_eq, hk, ih]

/-- Resolution for the `Char` and `Func` classifications: the first binding
of the classification fires unconditionally, its matcher ignored. -/
theorem findSome_resolve_other (kind : KeyType) (e : KeyEvent)
    (hk : ¬ kind = KeyType.Named) (l : List KeyDefinition) :
    l.findSome? (resolveOne kind e) =
      ((l.filter (fun d => d.kind == kind)).head?).map (fun d => d.actions e) := by
  induction l with
  | nil => rfl
  | cons d rest ih =>
    by_cases hdk : d.kind = kind
    · simp [List.findSome?_cons, List.filter_cons, resolveOne, hdk, hk]
    · simp [List.findSome?_cons, List.filter_cons, resolveOne,
        beq_iff_eq, hdk, ih]

/-- Claim C5, amended: for every binding table and event, `first` scans only
the event's classification in declaration order and produces at most one
command list (`Option`); for a `Named`-classified event the first binding
whose explicit matcher equals the event exactly wins and no-matcher `Named`
bindings never fire; for a `Char`- or `Func`-classified event the first
binding of that classification fires unconditionally, ignoring any matcher;
an event nothing resolves is silently ignored (`none`). -/
theorem firstResolutionAmended (t : KeyBindings) (e : KeyEvent) :
    KeyBindings.first t e = firstAmendedSpec t e := by
  unfold KeyBindings.first firstAmendedSpec
  by_cases hN : classify e = KeyType.Named
  · simp only [hN, if_true, eq_self_iff_true]
    exact findSome_resolve_named e t.bindings
  · simp only [if_neg hN]
    exact findSome_resolve_other (classify e) e hN t.bindings

/-- With `max_attempts = 0` and every submission empty after the configured
check, the required loop never breaks, whatever the fuel. -/
theorem requiredLoop_none_of_empty (inputs : Nat → List Char) (trim : Bool)
    (hall : ∀ i, checkEmptyC trim (inputs i) = true) :
    ∀ fuel a, requiredLoop inputs trim 0 a fuel = none := by
  intro fuel
  induction fuel with
  | zero => intro a; rfl
  | succ n ih =>
    intro a
    simp [requiredLoop, hall a, ih]

/-- With a non-zero `max_attempts` and every submission empty after the
check, the loop performs exactly `m` cycles and returns the `m`-th (last,
still-empty) submission. -/
theorem requiredLoop_exhaust (inputs : Nat → List Char) (trim : Bool)
    (m : Nat) (hm : 0 < m)
    (hall : ∀ i, checkEmptyC trim (inputs i) = true) :
    ∀ fuel a, a < m → m ≤ a + fuel →
      requiredLoop inputs trim m a fuel = some (inputs (m - 1), m) := by
  intro fuel
  induction fuel with
  | zero => intro a ha hle; omega
  | succ n ih =>
    intro a ha hle
    by_cases hstop : m ≤ a + 1
    · have ham : a + 1 = m := by omega
      subst ham
      simp [requiredLoop, hall a]
    · simp [requiredLoop, hall a, hstop]
      exact ih (a + 1) (by omega) (by omega)

/-- With `max_attempts = 0`, the loop breaks at the first submission whose
check value is non-empty, returning it unchanged. -/
theorem requiredLoop_first_nonempty (inputs : Nat → List Char) (trim : Bool)
    (k : Nat) (hbefore : ∀ i, i < k → checkEmptyC trim (inputs i) = true)
    (hk : checkEmptyC trim (inputs k) = false) :
    ∀ fuel a, a ≤ k → k < a + fuel →
      requiredLoop inputs trim 0 a fuel = some (inputs k, k + 1) := by
  intro fuel
  induction fuel with
  | zero => intro a ha hlt; omega
  | succ n ih =>
    intro a ha hlt
    by_cases hak : a = k
    · subst hak
      simp [requiredLoop, hk]
    · have halt : a < k := by omega
      simp [requiredLoop, hbefore a halt]
      exact ih (a + 1) (by omega) (by omega)

/-- Claim C3: under a `Required` policy, `max_attempts = 0` re-prompts
indefinitely while the (trimmed iff configured) submission is empty and
returns the first non-empty submission untouched; a non-zero cap exhausted
by empty submissions performs exactly that many cycles and returns the last
still-empty value instead of an error; with `max_attempts = 3`, `trim =
true` and whitespace-only submissions there are exactly 3 cycles and the
returned value trims to empty — the trim is applied only to the check value,
never to the returned one. -/
theorem requiredPolicy (inputs : Nat → List Char) (trim : Bool) :
    ((∀ i, checkEmptyC trim (inputs i) = true) →
      ∀ fuel, requiredLoop inputs trim 0 0 fuel = none) ∧
    (∀ k, (∀ i, i < k → checkEmptyC trim (inputs i) = true) →
      checkEmptyC trim (inputs k) = false →
      ∀ fuel, k < fuel →
        requiredLoop inputs trim 0 0 fuel = some (inputs k, k + 1)) ∧
    (∀ m, 0 < m → (∀ i, checkEmptyC trim (inputs i) = true) →
      requiredLoop inputs trim m 0 m = some (inputs (m - 1), m)) ∧
    ((∀ i, (trimChars (inputs i)).isEmpty = true) →
      requiredLoop inputs true 3 0 3 = some (inputs 2, 3) ∧
        (trimChars (inputs 2)).isEmpty = true) := by
  refine ⟨?_, ?_, ?_, ?_⟩
  · intro hall fuel
    exact requiredLoop_none_of_empty inputs trim hall fuel 0
  · intro k hbefore hk fuel hfuel
    exact requiredLoop_first_nonempty inputs trim k hbefore hk fuel 0
      (by omega) (by omega)
  · intro m hm hall
    exact requiredLoop_exhaust inputs trim m hm hall m 0 hm (by omega)
  · intro hall
    refine ⟨?_, hall 2⟩
    exact requiredLoop_exhaust inputs true 3 (by omega) (fun i => hall i) 3 0
      (by omega) (by omega)

/-- Witness for C3: always submitting a single space under
`max_attempts = 3`, `trim = true`. -/
theorem requiredPolicy_witness :
    requiredLoop (fun _ => [' ']) true 3 0 3 = some ([' '], 3) ∧
      (trimChars [' ']).isEmpty = true :=
  (requiredPolicy (fun _ => [' ']) true).2.2.2 (fun _ => rfl)

/-- Counterexample to the last clause of claim C10 as stated: in the
multiline session type `a`, accept, type `b`, accept, abort, the returned
buffer is `"b\n"` — two lines were accepted but only one newline remains,
because the character typed after the first accept-line went through the
`pos = 0` branch of `write_char`, which replaces the entire buffer. -/
theorem multilineNewlineCounterexample :
    runLoop mlOpts ⟨[], 2, 0⟩ mlEvents = .finished ['b', '\n'] ∧
    numSubmits mlEvents = 2 ∧
    (['b', '\n'].count '\n') ≠ numSubmits mlEvents := by
  refine ⟨by decide, by decide, by decide⟩

/-- Typing a run of 1-byte characters starting from a buffer of 1-byte
characters with the cursor at its end appends them one by one: each
`write_char` takes the appending branch and advances the cursor column. -/
theorem runLoop_write_ascii (opts : RunOpts) (rest : List LoopCmd) :
    ∀ (cs pre : List Char), (∀ c ∈ pre, charBytes c = 1) →
      (∀ c ∈ cs, charBytes c = 1) →
      runLoop opts ⟨pre, opts.promptCols + pre.length, 0⟩
          (cs.map LoopCmd.write ++ rest) =
        runLoop opts ⟨pre ++ cs, opts.promptCols + (pre ++ cs).length, 0⟩ rest := by
  intro cs
  induction cs with
  | nil => intro pre _ _; simp
  | cons c cs ih =>
    intro pre hp hc
    have hlen : utf8Len pre = pre.length := utf8Len_ascii pre hp
    have hstep : writeCharLib opts.promptCols (opts.promptCols + pre.length) pre c
        = some (pre ++ [c], opts.promptCols + pre.length + 1) := by
      simp [writeCharLib, hlen, Nat.add_sub_cancel_left]
    have hp' : ∀ x ∈ pre ++ [c], charBytes x = 1 := by
      intro x hx
      rcases List.mem_append.mp hx with h | h
      · exact hp x h
      · rw [List.mem_singleton.mp h]
        exact hc c (List.mem_cons_self c cs)
    have hc' : ∀ x ∈ cs, charBytes x = 1 :=
      fun x hx => hc x (List.mem_cons_of_mem c hx)
    simp only [List.map_cons, List.cons_append, runLoop, stepRun, hstep,
      List.append_eq]
    have hcol1 : opts.promptCols + pre.length + 1 =
        opts.promptCols + (pre ++ [c]).length := by
      simp [List.length_append]
      omega
    rw [hcol1, ih (pre ++ [c]) hp' hc']
    have harr : pre ++ [c] ++ cs = pre ++ c :: cs := by simp
    rw [harr]

/-- With multiline configured, `k` accept-line commands append exactly `k`
newlines (one each) and never leave the loop; a final abort returns the
accumulated buffer. -/
theorem runLoop_submits (opts : RunOpts) (ml : MultiLine)
    (hml : opts.multiline = some ml) :
    ∀ (k : Nat) (buf : List Char) (col row : Nat),
      runLoop opts ⟨buf, col, row⟩ (List.replicate k .submit ++ [.abort]) =
        .finished (buf ++ List.replicate k '\n') := by
  intro k
  induction k with
  | zero => intro buf col row; simp [runLoop, stepRun]
  | succ n ih =>
    intro buf col row
    simp only [List.replicate_succ, List.cons_append, runLoop, stepRun, hml,
      List.append_eq]
    rw [ih]
    congr 1
    simp [List.replicate_succ, List.append_assoc]

/-- Claim C10, amended: with multiline configured, accept-line appends
exactly one newline to the buffer and always continues the loop; the
session terminates only through the abort command, which returns the
buffer; and the returned buffer carries one trailing newline per accepted
line in sessions where no character is typed after an accept-line (typing
after one can replace the buffer, dropping earlier lines' newlines, as the
counterexample shows). -/
theorem multilineAmended :
    (∀ (opts : RunOpts) (s : RunState) (ml : MultiLine),
      opts.multiline = some ml →
      stepRun opts s .submit =
        .cont ⟨s.buffer ++ ['\n'],
               if ml.repeatPrompt then opts.promptCols else 0, s.row + 1⟩) ∧
    (∀ (opts : RunOpts) (s : RunState) (e : LoopCmd) (v : List Char),
      opts.multiline.isSome = true → stepRun opts s e = .done v →
      e = .abort ∧ v = s.buffer) ∧
    (∀ (pc : Nat) (rp : Bool) (cs : List Char) (k : Nat),
      (∀ c ∈ cs, charBytes c = 1) →
      runLoop ⟨pc, some ⟨rp⟩⟩ ⟨[], pc, 0⟩
          (cs.map LoopCmd.write ++ (List.replicate k .submit ++ [.abort])) =
        .finished (cs ++ List.replicate k '\n')) := by
  refine ⟨?_, ?_, ?_⟩
  · intro opts s ml hml
    simp [stepRun, hml]
  · intro opts s e v hml hdone
    cases e with
    | write c =>
      exfalso
      cases hwc : writeCharLib opts.promptCols s.col s.buffer c with
      | none => simp [stepRun, hwc] at hdone
      | some r => simp [stepRun, hwc] at hdone
    | submit =>
      exfalso
      cases hm : opts.multiline with
      | none => rw [hm] at hml; simp at hml
      | some ml => simp [stepRun, hm] at hdone
    | abort =>
      refine ⟨rfl, ?_⟩
      simp [stepRun] at hdone
      exact hdone.symm
  · intro pc rp cs k hcs
    have h0 : (⟨[], pc, 0⟩ : RunState)
        = ⟨([] : List Char), (⟨pc, some ⟨rp⟩⟩ : RunOpts).promptCols + ([] : List Char).length, 0⟩ := by
      simp
    rw [h0, runLoop_write_ascii ⟨pc, some ⟨rp⟩⟩
      (List.replicate k LoopCmd.submit ++ [LoopCmd.abort])
      cs [] (by intro x hx; simp at hx) hcs]
    simp only [List.nil_append]
    exact runLoop_submits ⟨pc, some ⟨rp⟩⟩ ⟨rp⟩ rfl k cs _ 0

/-- Witness for C10's amended claim: one accept-line step on a concrete
state, and a full session typing `a` then accepting twice then aborting. -/
theorem multilineAmended_witness :
    stepRun ⟨2, some ⟨true⟩⟩ ⟨['a'], 3, 0⟩ .submit = .cont ⟨['a', '\n'], 2, 1⟩ ∧
    runLoop ⟨2, some ⟨true⟩⟩ ⟨[], 2, 0⟩
        (['a'].map LoopCmd.write ++ (List.replicate 2 .submit ++ [.abort])) =
      .finished (['a'] ++ List.replicate 2 '\n') :=
  ⟨multilineAmended.1 ⟨2, some ⟨true⟩⟩ ⟨['a'], 3, 0⟩ ⟨true⟩ rfl,
   multilineAmended.2.2 2 true ['a'] 2 (by decide)⟩
